import Mathlib

/-!
Verification development for the Harry Potter / SWAPI ETL pipeline
(transform and descriptive-analysis stage).

The Python values flowing through the transformer are modelled by the
inductive type `PyVal`.  Python floats are modelled by exact rationals
(`ℚ`); the only irrational quantities produced by the code are square
roots (`statistics.stdev`, the Pearson denominator `(...) ** 0.5`),
which are modelled by `Real.sqrt`.  Python lists and dicts are modelled
by spine constructors (`listNil`/`listCons`, `dictNil`/`dictCons`) so
that the type is a plain (non-nested) inductive with decidable equality.

Sources:
  src/2.transform/transform.py  (HPTransformer, DescriptiveAnalysis)
  src/transform.py              (SWAPITransformer._parse_numeric)
-/

/-- Model of a Python/JSON value as it appears in the transformer.
`listCons`/`dictCons` build list and dict spines. -/
inductive PyVal where
  | none
  | bool (b : Bool)
  | int (n : Int)
  | float (q : ℚ)
  | str (s : String)
  | listNil
  | listCons (hd : PyVal) (tl : PyVal)
  | dictNil
  | dictCons (key : String) (val : PyVal) (tl : PyVal)
  deriving DecidableEq

/-- Build a dict spine from an association list. -/
def PyVal.ofDict : List (String × PyVal) → PyVal
  | [] => PyVal.dictNil
  | (k, v) :: t => PyVal.dictCons k v (PyVal.ofDict t)

/-- A raw or flat record: a Python dict with string keys
(association list; Python dicts have no duplicate keys). -/
abbrev Record := List (String × PyVal)

/-- Python `d.get(key)`: the value at `key`, `None` when absent. -/
def pyGet (r : Record) (k : String) : PyVal :=
  match r.find? (fun kv => kv.1 == k) with
  | Option.some kv => kv.2
  | Option.none => PyVal.none

/-- Python `d.get(key, default)`: the value at `key`, `default` when the
key is absent (a stored `None` is returned as `None`, not as `default`). -/
def pyGetD (r : Record) (k : String) (d : PyVal) : PyVal :=
  match r.find? (fun kv => kv.1 == k) with
  | Option.some kv => kv.2
  | Option.none => d

/-- Python truthiness `bool(v)`: `None`, `False`, `0`, `0.0`, `""`,
`[]` and `\x7b\x7d` are falsy, everything else is truthy. -/
def truthy : PyVal → Bool
  | PyVal.none => false
  | PyVal.bool b => b
  | PyVal.int n => decide (n ≠ 0)
  | PyVal.float q => decide (q ≠ 0)
  | PyVal.str s => decide (s ≠ "")
  | PyVal.listNil => false
  | PyVal.listCons _ _ => true
  | PyVal.dictNil => false
  | PyVal.dictCons _ _ _ => true

/-- View a `PyVal` dict spine as an association list (`Option.none` for
values that are not dicts); models the fact that only dicts support
Python's `.get`. -/
def PyVal.toDict? : PyVal → Option Record
  | PyVal.dictNil => Option.some []
  | PyVal.dictCons k v t => (PyVal.toDict? t).map (fun l => (k, v) :: l)
  | _ => Option.none

/-! Python string primitives, modelled over the character list.
These model `str.lower`, `str.replace(',', '')` and the whitespace
stripping performed by `float()` on its argument. -/

/-- Python `s.lower()` (ASCII case folding, which covers every string
the transformer compares). -/
def pyLower (s : String) : String :=
  ⟨s.data.map Char.toLower⟩

/-- Python `s.replace(',', '')`: remove every comma. -/
def stripCommas (s : String) : String :=
  ⟨s.data.filter (fun c => decide (c ≠ ','))⟩

/-- Leading/trailing whitespace stripping done by Python `float(str)`. -/
def pyStrip (s : String) : String :=
  ⟨((s.data.dropWhile Char.isWhitespace).reverse.dropWhile Char.isWhitespace).reverse⟩

/-- Digit run to a natural number (the characters are checked to be
digits before this is applied). -/
def digitsVal (cs : List Char) : ℕ :=
  cs.foldl (fun a c => a * 10 + (c.toNat - 48)) 0

/-- Split a character list at the first character satisfying `p`;
the second component is `Option.none` when no such character occurs. -/
def splitFirst (p : Char → Bool) (cs : List Char) : List Char × Option (List Char) :=
  match cs.span (fun c => !(p c)) with
  | (before, []) => (before, Option.none)
  | (before, _ :: rest) => (before, Option.some rest)

/-- Parse the digits of an exponent part: optional sign followed by a
nonempty digit run. -/
def parseExp? (cs : List Char) : Option ℤ :=
  match cs with
  | '+' :: t => if t ≠ [] ∧ t.all Char.isDigit then Option.some (digitsVal t) else Option.none
  | '-' :: t => if t ≠ [] ∧ t.all Char.isDigit then Option.some (-(digitsVal t : ℤ)) else Option.none
  | t => if t ≠ [] ∧ t.all Char.isDigit then Option.some (digitsVal t) else Option.none

/-- The decimal-literal shape of a string accepted by Python
`float(s)`: a negative-sign flag, the mantissa digits read as a
natural number, and the power of ten it is scaled by.  `Option.none`
models `ValueError`. -/
def floatRep? (s : String) : Option (Bool × ℕ × ℤ) :=
  let cs := (pyStrip s).data
  let neg : Bool := decide (cs.head? = Option.some '-')
  let rest := match cs with
    | '+' :: t => t
    | '-' :: t => t
    | t => t
  let (mant, expPart) := splitFirst (fun c => c == 'e' || c == 'E') rest
  let (ipart, fpartOpt) := splitFirst (fun c => c == '.') mant
  let fpart := fpartOpt.getD []
  if (ipart ++ fpart) ≠ [] ∧ (ipart ++ fpart).all Char.isDigit then
    match expPart with
    | Option.none => Option.some (neg, digitsVal (ipart ++ fpart), -(fpart.length : ℤ))
    | Option.some es =>
        match parseExp? es with
        | Option.some e => Option.some (neg, digitsVal (ipart ++ fpart), e - (fpart.length : ℤ))
        | Option.none => Option.none
  else
    Option.none

/-- Model of Python `float(s)` on finite decimal literals: optional
surrounding whitespace, optional sign, a decimal mantissa (digits with
an optional fractional part, at least one digit overall) and an
optional exponent.  `Option.none` models `ValueError`.  Special
lexemes accepted by CPython (`inf`, `nan`, underscore separators) are
outside the model; no input exercised by the pipeline or the claims
uses them. -/
def parseFloat? (s : String) : Option ℚ :=
  (floatRep? s).map (fun r => (if r.1 then -1 else 1) * (r.2.1 : ℚ) * (10 : ℚ) ^ r.2.2)

namespace HPTransformer

/-- `HPTransformer._parse_numeric` (src/2.transform/transform.py:20-34):
`None` stays `None`; an `int` or `float` (which in Python includes
`bool`, a subclass of `int`) is returned as a float; a string equal,
case-insensitively, to `unknown`, `n/a`, `none` or the empty string
gives `None`; any other string has commas removed and is parsed with
`float`, `None` on failure; any other type gives `None`. -/
def parse_numeric : PyVal → Option ℚ
  | PyVal.none => Option.none
  | PyVal.bool b => Option.some (if b then 1 else 0)
  | PyVal.int n => Option.some (n : ℚ)
  | PyVal.float q => Option.some q
  | PyVal.str s =>
      if pyLower s ∈ (["unknown", "n/a", "none", ""] : List String) then Option.none
      else parseFloat? (stripCommas s)
  | _ => Option.none

end HPTransformer

namespace SWAPITransformer

/-- `SWAPITransformer._parse_numeric` (src/transform.py:44-61):
`if not value or value.lower() in ['unknown', 'n/a', 'none']: return
None`, otherwise strip commas and parse with `float` (`None` on
failure).  A falsy value (including `None`, `""`, `0`, `0.0`, `False`)
yields `None`; on a truthy non-string `.lower()` raises
`AttributeError`, which is not caught here and is modelled by
`Except.error`. -/
def parse_numeric (v : PyVal) : Except Unit (Option ℚ) :=
  if truthy v = false then Except.ok Option.none
  else
    match v with
    | PyVal.str s =>
        if pyLower s ∈ (["unknown", "n/a", "none"] : List String) then Except.ok Option.none
        else Except.ok (parseFloat? (stripCommas s))
    | _ => Except.error ()

end SWAPITransformer

/-- The numeric coercion rule exactly as the specification words it
(spec §4.1), with Python's `bool` counting as a number because
`isinstance(True, int)` holds: `null` stays null, a number stays a
number, the four sentinel strings give null, any other string is
comma-stripped and float-parsed, anything else gives null. -/
def specParseRule : PyVal → Option ℚ
  | PyVal.none => Option.none
  | PyVal.bool b => Option.some (if b then 1 else 0)
  | PyVal.int n => Option.some (n : ℚ)
  | PyVal.float q => Option.some q
  | PyVal.str s =>
      if pyLower s ∈ (["unknown", "n/a", "none", ""] : List String) then Option.none
      else parseFloat? (stripCommas s)
  | _ => Option.none

/-- Python `int(x)` on a finite float: truncation toward zero. -/
def pyInt (q : ℚ) : ℤ :=
  if 0 ≤ q then ⌊q⌋ else ⌈q⌉

/-- Re-inject the result of `parse_numeric` as a Python value
(`float` or `None`), for the idempotence property. -/
def reinject : Option ℚ → PyVal
  | Option.some q => PyVal.float q
  | Option.none => PyVal.none

namespace HPTransformer

/-- The wizard gate of `transform_characters`
(src/2.transform/transform.py:43-46):
`wizard = bool(character.get('wizard')); if wizard is False: continue`.
Since `wizard` is always a `bool` there, `is False` is exactly
falsiness of the raw field. -/
def wizardGate (c : Record) : Bool :=
  truthy (pyGet c "wizard")

/-- The body of the `transform_characters` loop after the gate
(src/2.transform/transform.py:47-76), building the flat record.
`Option.none` models the `except` path: `character.get('wand', {})`
followed by `wand.get(...)` raises `AttributeError` when the raw
record stores a non-dict (for example `None`) under `'wand'`. -/
def characterBody (c : Record) : Option Record :=
  match PyVal.toDict? (pyGetD c "wand" PyVal.dictNil) with
  | Option.none => Option.none
  | Option.some wand =>
    let yob := parse_numeric (pyGet c "yearOfBirth")
    Option.some
      [ ("id", pyGet c "id"),
        ("name", pyGet c "name"),
        ("alternate_names", pyGetD c "alternate_names" PyVal.listNil),
        ("house", pyGet c "house"),
        ("year_of_birth", match yob with
          | Option.some q => PyVal.int (pyInt q)
          | Option.none => PyVal.none),
        ("ancestry", pyGet c "ancestry"),
        ("gender", pyGet c "gender"),
        ("species", pyGet c "species"),
        ("wizard", pyGet c "wizard"),
        ("wand_wood", pyGet wand "wood"),
        ("wand_core", pyGet wand "core"),
        ("wand_length", match parse_numeric (pyGet wand "length") with
          | Option.some q => PyVal.float q
          | Option.none => PyVal.none),
        ("patronus", pyGet c "patronus"),
        ("hogwarts_student", pyGet c "hogwartsStudent"),
        ("hogwarts_staff", pyGet c "hogwartsStaff"),
        ("actor", pyGet c "actor"),
        ("alternate_actors", pyGetD c "alternate_actors" PyVal.listNil),
        ("alive", pyGet c "alive"),
        ("image", pyGet c "image"),
        ("eye_colour", pyGet c "eyeColour"),
        ("hair_colour", pyGet c "hairColour"),
        ("date_of_birth", pyGet c "dateOfBirth") ]

/-- One iteration of the `transform_characters` loop: gate first
(`continue` when the wizard field is falsy), then the body, whose
exception path contributes nothing (`except: continue`). -/
def transformCharacter (c : Record) : Option Record :=
  if wizardGate c then characterBody c else Option.none

/-- `HPTransformer.transform_characters`
(src/2.transform/transform.py:36-81). -/
def transform_characters (data : List Record) : List Record :=
  data.filterMap transformCharacter

end HPTransformer

/-! Descriptive-analysis engine (`DescriptiveAnalysis`,
src/2.transform/transform.py:93-295). -/

/-- Lexicographic (code-point) strict comparison of character lists:
the order Python uses on `str`. -/
def charsLt : List Char → List Char → Bool
  | [], _ :: _ => true
  | _, [] => false
  | a :: as, b :: bs => if a < b then true else if b < a then false else charsLt as bs

/-- Python `a <= b` on strings: code-point lexicographic order. -/
def pyStrLe (a b : String) : Bool :=
  !(charsLt b.data a.data)

/-- A value that is numeric and not boolean:
`isinstance(value, (int, float)) and not isinstance(value, bool)`
(used by column discovery and per-column extraction). -/
def numericNonBool? : PyVal → Option ℚ
  | PyVal.int n => Option.some (n : ℚ)
  | PyVal.float q => Option.some q
  | _ => Option.none

/-- A value accepted by `isinstance(val, (int, float))` alone, as in
the pairing loops of `get_correlation_matrix` and
`select_best_features`; Python `bool` is a subclass of `int`, so
booleans qualify there and `float(True) = 1.0`. -/
def numericValue? : PyVal → Option ℚ
  | PyVal.bool b => Option.some (if b then 1 else 0)
  | PyVal.int n => Option.some (n : ℚ)
  | PyVal.float q => Option.some q
  | _ => Option.none

/-- The keys contributed by one record to the numeric-column set:
`key != 'id' and isinstance(value, (int, float)) and not
isinstance(value, bool)` over `record.items()`. -/
def recordNumericKeys (r : Record) : List String :=
  r.filterMap (fun kv =>
    if kv.1 ≠ "id" ∧ (numericNonBool? kv.2).isSome then Option.some kv.1 else Option.none)

/-- First-seen deduplication with an accumulator of already-seen
elements (models collecting into a Python `set`). -/
def dedupFirstAux {α : Type} [DecidableEq α] : List α → List α → List α
  | [], _ => []
  | a :: t, seen => if a ∈ seen then dedupFirstAux t seen else a :: dedupFirstAux t (a :: seen)

/-- First-seen deduplication of a list. -/
def dedupFirst {α : Type} [DecidableEq α] (l : List α) : List α :=
  dedupFirstAux l []

/-- `DescriptiveAnalysis._get_numeric_columns`
(src/2.transform/transform.py:106-118): the set of field names that in
some record hold a non-boolean number, excluding `'id'`, sorted
lexicographically (`sorted(list(numeric_cols))`).  A stable insertion
sort computes the same list as Python's sort. -/
def get_numeric_columns (data : List Record) : List String :=
  List.insertionSort (fun a b => pyStrLe a b = true)
    (dedupFirst (data.flatMap recordNumericKeys))

/-- Ascending sort of rationals (Python `sorted`; any stable sort
computes the same list). -/
def sortQ (l : List ℚ) : List ℚ :=
  List.insertionSort (fun a b : ℚ => a ≤ b) l

/-- `DescriptiveAnalysis._extract_numeric_values`
(src/2.transform/transform.py:120-127): the non-null, non-boolean
numeric observations of a column across all records, ascending. -/
def extract_numeric_values (data : List Record) (col : String) : List ℚ :=
  sortQ (data.filterMap (fun r => numericNonBool? (pyGet r col)))

/-- `statistics.mean`: arithmetic mean (exact on the rational model). -/
def meanQ (l : List ℚ) : ℚ :=
  l.sum / l.length

/-- `statistics.median`: sort, take the middle element for odd length,
the average of the two middle elements for even length. -/
def medianPy (l : List ℚ) : ℚ :=
  let s := sortQ l
  if s.length % 2 = 1 then s.getD (s.length / 2) 0
  else (s.getD (s.length / 2 - 1) 0 + s.getD (s.length / 2) 0) / 2

/-- Sum of squared deviations from the mean,
`sum((x[i] - mean_x) ** 2 for i in range(n))`. -/
def sumSqDev (l : List ℚ) : ℚ :=
  ∑ i ∈ Finset.range l.length, (l.getD i 0 - meanQ l) ^ 2

/-- Pearson numerator,
`sum((x[i] - mean_x) * (y[i] - mean_y) for i in range(n))`. -/
def sumCross (x y : List ℚ) : ℚ :=
  ∑ i ∈ Finset.range x.length, (x.getD i 0 - meanQ x) * (y.getD i 0 - meanQ y)

/-- Python `min` of a nonempty list (`0` pads the unreachable empty
case; every call site guards `len(values) > 0`). -/
def pyMin : List ℚ → ℚ
  | [] => 0
  | a :: t => t.foldl min a

/-- Python `max` of a nonempty list. -/
def pyMax : List ℚ → ℚ
  | [] => 0
  | a :: t => t.foldl max a

/-- One entry of the `statistical_summary` mapping. -/
structure StatSummary where
  mean : ℚ
  median : ℚ
  q1 : ℚ
  q3 : ℚ
  std : ℝ
  min : ℚ
  max : ℚ
  count : ℕ

/-- The summary dict built for one column by `statistical_summary`
(src/2.transform/transform.py:144-158), over the ascending
observations `values` of length `n`: mean, median, `values[n // 4]`,
`values[(3 * n) // 4]`, sample standard deviation
(`statistics.stdev`, or `0.0` when `n <= 1`), min, max and count. -/
noncomputable def colSummary (data : List Record) (col : String) : StatSummary :=
  let values := extract_numeric_values data col
  let n := values.length
  { mean := meanQ values
    median := medianPy values
    q1 := values.getD (n / 4) 0
    q3 := values.getD (3 * n / 4) 0
    std := if 1 < n then Real.sqrt ((sumSqDev values : ℝ) / ((n : ℝ) - 1)) else 0
    min := pyMin values
    max := pyMax values
    count := n }

/-- `DescriptiveAnalysis.statistical_summary`
(src/2.transform/transform.py:129-161): per discovered numeric column
with at least one observation, the column's summary; columns with no
observations are skipped. -/
noncomputable def statistical_summary (data : List Record) : List (String × StatSummary) :=
  (get_numeric_columns data).filterMap (fun col =>
    if 0 < (extract_numeric_values data col).length then
      Option.some (col, colSummary data col)
    else Option.none)

/-- `DescriptiveAnalysis._pearson_correlation`
(src/2.transform/transform.py:214-230): `0.0` when the lengths differ
or `n < 2`; otherwise `numerator / (Sxx * Syy) ** 0.5`, and `0.0` when
that denominator is zero. -/
noncomputable def pearson_correlation (x y : List ℚ) : ℝ :=
  if x.length ≠ y.length ∨ x.length < 2 then 0
  else if Real.sqrt ((sumSqDev x * sumSqDev y : ℚ) : ℝ) = 0 then 0
  else (sumCross x y : ℝ) / Real.sqrt ((sumSqDev x * sumSqDev y : ℚ) : ℝ)

/-- Round half to even (the rounding of Python's built-in `round`). -/
noncomputable def pyRoundHalfEven (x : ℝ) : ℤ :=
  if Int.fract x = 1 / 2 then (if Even ⌊x⌋ then ⌊x⌋ else ⌊x⌋ + 1) else round x

/-- Python `round(x, 4)` on the real model: round half to even at the
fourth decimal place. -/
noncomputable def round4 (x : ℝ) : ℝ :=
  (pyRoundHalfEven (x * 10000) : ℝ) / 10000

/-- The per-pair joint observations of two columns used by
`get_correlation_matrix` (src/2.transform/transform.py:251-257): both
values non-null and `isinstance(..., (int, float))`, record order. -/
def jointPairs (data : List Record) (c1 c2 : String) : List (ℚ × ℚ) :=
  data.filterMap (fun r =>
    match numericValue? (pyGet r c1), numericValue? (pyGet r c2) with
    | Option.some a, Option.some b => Option.some (a, b)
    | _, _ => Option.none)

/-- One cell of the correlation matrix
(src/2.transform/transform.py:244-266): `1.0` on the diagonal,
otherwise the Pearson correlation of the joint observations rounded to
4 decimal places when at least two pairs exist, else `0.0`. -/
noncomputable def corrEntry (data : List Record) (c1 c2 : String) : ℝ :=
  if c1 = c2 then 1
  else
    let pairs := jointPairs data c1 c2
    if 1 < pairs.length then
      round4 (pearson_correlation (pairs.map Prod.fst) (pairs.map Prod.snd))
    else 0

/-- `DescriptiveAnalysis.get_correlation_matrix`
(src/2.transform/transform.py:232-271). -/
noncomputable def get_correlation_matrix (data : List Record) :
    List (String × List (String × ℝ)) :=
  (get_numeric_columns data).map (fun c1 =>
    (c1, (get_numeric_columns data).map (fun c2 => (c2, corrEntry data c1 c2))))

/-- Index of the first occurrence of `v` (the code the target mapping
assigned to a previously seen target value). -/
def seenIndex {α : Type} [DecidableEq α] (v : α) : List α → ℕ
  | [] => 0
  | a :: t => if a = v then 0 else seenIndex v t + 1

/-- The label-encoding loop of `select_best_features`
(src/2.transform/transform.py:171-184): walk the records; a `None`
target encodes to `None`; a seen value reuses its code (its index in
the first-seen list); a new value gets the next code and is appended. -/
def encodeGo (dep : String) : List Record → List PyVal → List (Option ℕ)
  | [], _ => []
  | r :: rs, seen =>
    let v := pyGet r dep
    if v = PyVal.none then Option.none :: encodeGo dep rs seen
    else if v ∈ seen then Option.some (seenIndex v seen) :: encodeGo dep rs seen
    else Option.some seen.length :: encodeGo dep rs (seen ++ [v])

/-- The encoded target column of `select_best_features`. -/
def encodeTargets (data : List Record) (dep : String) : List (Option ℕ) :=
  encodeGo dep data []

/-- The `(value, encoded target)` pairs collected for one column by
`select_best_features` (src/2.transform/transform.py:190-199): the
target code must not be `None` and the value must be non-null and
`isinstance(..., (int, float))`. -/
def featurePairs (data : List Record) (tcodes : List (Option ℕ)) (col : String) :
    List (ℚ × ℚ) :=
  (data.zip tcodes).filterMap (fun p =>
    match p.2, numericValue? (pyGet p.1 col) with
    | Option.some t, Option.some v => Option.some (v, (t : ℚ))
    | _, _ => Option.none)

/-- Python's stable sort by correlation value, descending
(`correlations.sort(key=lambda x: x[1], reverse=True)`). -/
noncomputable def sortCorrDesc (l : List (String × ℝ)) : List (String × ℝ) :=
  @List.insertionSort _ (fun a b => b.2 ≤ a.2) (fun _ _ => Classical.propDecidable _) l

/-- The unsorted `correlations` list of `select_best_features`
(src/2.transform/transform.py:186-205): per discovered numeric column
with at least two valid `(value, encoded target)` pairs, the absolute
Pearson correlation; columns with fewer pairs are omitted. -/
noncomputable def featureCorrelations (data : List Record) (dep : String) :
    List (String × ℝ) :=
  (get_numeric_columns data).filterMap (fun col =>
    let pairs := featurePairs data (encodeTargets data dep) col
    if 1 < pairs.length then
      Option.some (col, |pearson_correlation (pairs.map Prod.fst) (pairs.map Prod.snd)|)
    else Option.none)

/-- `DescriptiveAnalysis.select_best_features`
(src/2.transform/transform.py:163-212): the correlations list sorted
descending by correlation and truncated to `top_n`. -/
noncomputable def select_best_features (data : List Record) (dep : String) (top_n : ℕ) :
    List (String × ℝ) :=
  (sortCorrDesc (featureCorrelations data dep)).take top_n

/-- The analysis report assembled by `generate_report`. -/
structure AnalysisReport where
  total_records : ℕ
  total_columns : ℕ
  statistical_summary : List (String × StatSummary)
  best_features : List (String × ℝ)
  correlation_matrix : List (String × List (String × ℝ))

/-- `DescriptiveAnalysis.generate_report`
(src/2.transform/transform.py:273-295): `total_records = len(data)`,
`total_columns = len(data[0]) if data else 0`, plus the three analysis
products. -/
noncomputable def generate_report (data : List Record) (dep : String) (top_n : ℕ) :
    AnalysisReport :=
  { total_records := data.length
    total_columns := match data with
      | [] => 0
      | r :: _ => r.length
    statistical_summary := statistical_summary data
    best_features := select_best_features data dep top_n
    correlation_matrix := get_correlation_matrix data }

/-! Helper lemmas and claim theorems. -/

/-- The two parser variants agree case-by-case with the specification
rule on the character side. -/
theorem hp_parse_eq_specRule : ∀ v, HPTransformer.parse_numeric v = specParseRule v := by
  intro v; cases v <;> rfl

/-- An all-lowercase image is empty exactly for the empty string. -/
theorem pyLower_empty_iff (s : String) : pyLower s = "" ↔ s = "" := by
  constructor
  · intro h
    have h2 : (pyLower s).data = "".data := congrArg String.data h
    simp only [pyLower] at h2
    have h3 : s.data = [] := by simpa using h2
    exact String.toList_inj.mp (by simpa [String.toList] using h3)
  · intro h; subst h; rfl

/-- On strings the SWAPI parser implements the specification rule:
the `not value` test catches exactly the empty string, and the
three-element sentinel list plus that test matches the four-element
sentinel set of the rule. -/
theorem swapi_parse_str (s : String) :
    SWAPITransformer.parse_numeric (PyVal.str s) = Except.ok (specParseRule (PyVal.str s)) := by
  by_cases hs : s = ""
  · subst hs; rfl
  · have ht : truthy (PyVal.str s) = true := by simp [truthy, hs]
    by_cases hm : pyLower s ∈ (["unknown", "n/a", "none"] : List String)
    · have hm4 : pyLower s ∈ (["unknown", "n/a", "none", ""] : List String) := by
        simp at hm ⊢; tauto
      simp [SWAPITransformer.parse_numeric, specParseRule, ht, hm, hm4]
    · have hm4 : pyLower s ∉ (["unknown", "n/a", "none", ""] : List String) := by
        simp at hm ⊢
        refine ⟨hm.1, hm.2.1, hm.2.2, ?_⟩
        intro h
        exact hs ((pyLower_empty_iff s).mp h)
      simp [SWAPITransformer.parse_numeric, specParseRule, ht, hm, hm4]

/-- C1, counterexample.  The claim asserts the uniform rule "a number
stays a number (returned as a float)" for the person/planet/starship
variant as well; but `SWAPITransformer._parse_numeric(0)` falls into
the `not value` branch and returns `None`, not `0.0`. -/
theorem claim_C1_counterexample :
    SWAPITransformer.parse_numeric (PyVal.int 0) ≠ Except.ok (Option.some (0 : ℚ)) := by
  rw [show SWAPITransformer.parse_numeric (PyVal.int 0) = Except.ok Option.none from rfl]
  simp

/-- C1, amended.  The numeric coercion rule (null stays null; a number
— including Python's `bool`, an `int` subclass — becomes a float; the
four sentinel strings, case-insensitively, give null; any other string
is comma-stripped and float-parsed with null on failure; any other
type gives null) holds for every input of the character variant, and
for every null or string input of the person/planet/starship variant;
on non-null non-string inputs the latter deviates (falsy values give
null, truthy ones raise `AttributeError`). -/
theorem claim_C1 :
    (∀ v, HPTransformer.parse_numeric v = specParseRule v) ∧
    SWAPITransformer.parse_numeric PyVal.none = Except.ok (specParseRule PyVal.none) ∧
    (∀ s, SWAPITransformer.parse_numeric (PyVal.str s) = Except.ok (specParseRule (PyVal.str s))) :=
  ⟨hp_parse_eq_specRule, rfl, swapi_parse_str⟩

/-- C1, witness: the amended rule evaluated at concrete inputs. -/
theorem claim_C1_witness :
    HPTransformer.parse_numeric (PyVal.str "N/A") = specParseRule (PyVal.str "N/A") ∧
    SWAPITransformer.parse_numeric (PyVal.str "N/A") = Except.ok (specParseRule (PyVal.str "N/A")) ∧
    specParseRule (PyVal.str "N/A") = Option.none :=
  ⟨claim_C1.1 (PyVal.str "N/A"), claim_C1.2.2 "N/A", rfl⟩

/-- Evaluation: parsing the literal `"1980"`. -/
theorem parse_str_1980 : HPTransformer.parse_numeric (PyVal.str "1980") = Option.some 1980 := by
  have h : floatRep? "1980" = Option.some (false, 1980, 0) := by decide
  have h2 : parseFloat? "1980" = Option.some 1980 := by rw [parseFloat?, h]; norm_num
  rw [HPTransformer.parse_numeric]
  rw [if_neg (by decide)]
  exact h2

/-- C9.  `parse_numeric` is idempotent on its own output: whenever it
yields a number, feeding that number back (as a Python float) yields
the same result. -/
theorem claim_C9 :
    ∀ (v : PyVal) (q : ℚ), HPTransformer.parse_numeric v = Option.some q →
      HPTransformer.parse_numeric (reinject (HPTransformer.parse_numeric v)) =
        HPTransformer.parse_numeric v := by
  intro v q h
  rw [h]
  rfl

/-- C9, witness: idempotence at the parsed string `"1980"`. -/
theorem claim_C9_witness :
    HPTransformer.parse_numeric
        (reinject (HPTransformer.parse_numeric (PyVal.str "1980"))) =
      HPTransformer.parse_numeric (PyVal.str "1980") :=
  claim_C9 (PyVal.str "1980") 1980 parse_str_1980

/-- C10.  The wizard gate is a truthiness test: an absent, null,
zero, empty-string or `False` wizard field excludes the record, and a
record can only produce output when the field is truthy. -/
theorem claim_C10 :
    ∀ c : Record,
      (c.find? (fun kv => kv.1 == "wizard") = Option.none →
        HPTransformer.transformCharacter c = Option.none) ∧
      (pyGet c "wizard" = PyVal.none → HPTransformer.transformCharacter c = Option.none) ∧
      (pyGet c "wizard" = PyVal.bool false → HPTransformer.transformCharacter c = Option.none) ∧
      (pyGet c "wizard" = PyVal.int 0 → HPTransformer.transformCharacter c = Option.none) ∧
      (pyGet c "wizard" = PyVal.float 0 → HPTransformer.transformCharacter c = Option.none) ∧
      (pyGet c "wizard" = PyVal.str "" → HPTransformer.transformCharacter c = Option.none) ∧
      (∀ fc, HPTransformer.transformCharacter c = Option.some fc →
        truthy (pyGet c "wizard") = true) := by
  intro c
  have gate : ∀ h : truthy (pyGet c "wizard") = false,
      HPTransformer.transformCharacter c = Option.none := by
    intro h
    rw [HPTransformer.transformCharacter, HPTransformer.wizardGate, h]
    rfl
  refine ⟨?_, ?_, ?_, ?_, ?_, ?_, ?_⟩
  · intro h
    apply gate
    rw [pyGet, h]
    rfl
  · intro h; apply gate; rw [h]; rfl
  · intro h; apply gate; rw [h]; rfl
  · intro h; apply gate; rw [h]; rfl
  · intro h; apply gate; rw [h]; simp [truthy]
  · intro h; apply gate; rw [h]; simp [truthy]
  · intro fc h
    by_cases hg : truthy (pyGet c "wizard") = true
    · exact hg
    · exfalso
      have hnone := gate (by simpa using hg)
      rw [hnone] at h
      simp at h

/-- C10, witness: the gate evaluated on concrete falsy records. -/
theorem claim_C10_witness :
    HPTransformer.transformCharacter [("wizard", PyVal.int 0)] = Option.none ∧
    HPTransformer.transformCharacter [("name", PyVal.str "x")] = Option.none :=
  ⟨(claim_C10 [("wizard", PyVal.int 0)]).2.2.2.1 (by decide),
   (claim_C10 [("name", PyVal.str "x")]).1 (by decide)⟩

/-- The first raw character of the specification scenario. -/
def rawChar1 : Record :=
  [("id", PyVal.int 1), ("wizard", PyVal.bool true),
   ("yearOfBirth", PyVal.str "1980"), ("house", PyVal.str "Gryffindor")]

/-- The second raw character of the specification scenario. -/
def rawChar2 : Record :=
  [("id", PyVal.int 2), ("wizard", PyVal.bool false),
   ("yearOfBirth", PyVal.str "unknown"), ("house", PyVal.str "Slytherin")]

/-- The flat record the normalizer produces for `rawChar1`. -/
def flatChar1 : Record :=
  [("id", PyVal.int 1), ("name", PyVal.none), ("alternate_names", PyVal.listNil),
   ("house", PyVal.str "Gryffindor"), ("year_of_birth", PyVal.int 1980),
   ("ancestry", PyVal.none), ("gender", PyVal.none), ("species", PyVal.none),
   ("wizard", PyVal.bool true), ("wand_wood", PyVal.none), ("wand_core", PyVal.none),
   ("wand_length", PyVal.none), ("patronus", PyVal.none),
   ("hogwarts_student", PyVal.none), ("hogwarts_staff", PyVal.none),
   ("actor", PyVal.none), ("alternate_actors", PyVal.listNil), ("alive", PyVal.none),
   ("image", PyVal.none), ("eye_colour", PyVal.none), ("hair_colour", PyVal.none),
   ("date_of_birth", PyVal.none)]

/-- Evaluation: `int()` truncation at `1980.0`. -/
theorem pyInt_1980 : pyInt 1980 = 1980 := by
  rw [pyInt]; norm_num

/-- Evaluation: the loop body on `rawChar1`. -/
theorem transformCharacter_rawChar1 :
    HPTransformer.transformCharacter rawChar1 = Option.some flatChar1 := by
  have hgate : HPTransformer.wizardGate rawChar1 = true := by decide
  rw [HPTransformer.transformCharacter, if_pos hgate, HPTransformer.characterBody]
  have hw : PyVal.toDict? (pyGetD rawChar1 "wand" PyVal.dictNil) = Option.some [] := by decide
  rw [hw]
  have hyob : HPTransformer.parse_numeric (pyGet rawChar1 "yearOfBirth") = Option.some 1980 := by
    rw [show pyGet rawChar1 "yearOfBirth" = PyVal.str "1980" from rfl]
    exact parse_str_1980
  rw [hyob]
  simp only [pyInt_1980]
  decide

/-- Evaluation: the loop body on `rawChar2` (gate is `False`). -/
theorem transformCharacter_rawChar2 :
    HPTransformer.transformCharacter rawChar2 = Option.none := by decide

/-- C8, counterexample.  The claim says the normalizer retains exactly
the gate-true records, one flat record each; but a gate-true record
whose `'wand'` value is `None` raises `AttributeError` in the loop
body (`None.get('wood')`) and is skipped by the `except` handler, so
it produces nothing. -/
theorem claim_C8_counterexample :
    HPTransformer.transform_characters [[("wizard", PyVal.bool true), ("wand", PyVal.none)]] = [] ∧
    (([[("wizard", PyVal.bool true), ("wand", PyVal.none)]] : List Record).filter
        (fun c => HPTransformer.wizardGate c)).length = 1 := by
  constructor <;> decide

/-- C8, amended.  The normalizer retains exactly the raw records whose
wizard gate is truthy and whose loop body raises no error (with this
code the only error source is a present non-dict `'wand'` value): a
record whose gate is falsy contributes nothing, a retained record
contributes its flat record in input order, and on the two-record
scenario the output is exactly the flat record of the first character
with `year_of_birth = 1980`. -/
theorem claim_C8 :
    (∀ (l1 l2 : List Record) (c : Record),
      (HPTransformer.transformCharacter c = Option.none →
        HPTransformer.transform_characters (l1 ++ c :: l2) =
          HPTransformer.transform_characters (l1 ++ l2)) ∧
      (∀ fc, HPTransformer.transformCharacter c = Option.some fc →
        HPTransformer.transform_characters (l1 ++ c :: l2) =
          HPTransformer.transform_characters l1 ++ fc :: HPTransformer.transform_characters l2) ∧
      (HPTransformer.wizardGate c = false → HPTransformer.transformCharacter c = Option.none)) ∧
    HPTransformer.transform_characters [rawChar1, rawChar2] = [flatChar1] := by
  constructor
  · intro l1 l2 c
    refine ⟨?_, ?_, ?_⟩
    · intro h
      simp [HPTransformer.transform_characters, List.filterMap_append, List.filterMap_cons, h]
    · intro fc h
      simp [HPTransformer.transform_characters, List.filterMap_append, List.filterMap_cons, h]
    · intro h
      rw [HPTransformer.transformCharacter, h]
      rfl
  · simp [HPTransformer.transform_characters, List.filterMap_cons,
      transformCharacter_rawChar1, transformCharacter_rawChar2]

/-- C8, witness: the amended statement applied to the scenario
records. -/
theorem claim_C8_witness :
    HPTransformer.transform_characters ([rawChar1] ++ rawChar2 :: []) =
      HPTransformer.transform_characters ([rawChar1] ++ []) ∧
    HPTransformer.transform_characters ([] ++ rawChar1 :: [rawChar2]) =
      HPTransformer.transform_characters [] ++
        flatChar1 :: HPTransformer.transform_characters [rawChar2] :=
  ⟨(claim_C8.1 [rawChar1] [] rawChar2).1 transformCharacter_rawChar2,
   (claim_C8.1 [] [rawChar2] rawChar1).2.1 flatChar1 transformCharacter_rawChar1⟩

/-- Strict code-point lexicographic comparison agrees with the
lexicographic order on character lists. -/
theorem charsLt_iff : ∀ x y : List Char, charsLt x y = true ↔ List.Lex (· < ·) x y := by
  intro x
  induction x with
  | nil =>
    intro y
    cases y with
    | nil =>
      simp only [charsLt, Bool.false_eq_true, false_iff]
      intro h; cases h
    | cons b bs =>
      simp only [charsLt, true_iff]
      exact List.Lex.nil
  | cons a as ih =>
    intro y
    cases y with
    | nil =>
      simp only [charsLt, Bool.false_eq_true, false_iff]
      intro h; cases h
    | cons b bs =>
      rw [charsLt]
      by_cases hab : a < b
      · simp only [hab, if_true, true_iff]
        exact List.Lex.rel hab
      · by_cases hba : b < a
        · simp only [hab, hba, if_false, if_true, Bool.false_eq_true, false_iff]
          intro h
          cases h with
          | cons h => exact absurd rfl (ne_of_gt hba)
          | rel h => exact hab h
        · have heq : a = b := le_antisymm (not_lt.mp hba) (not_lt.mp hab)
          subst heq
          simp only [hab, hba, if_false, ih bs]
          constructor
          · intro h; exact List.Lex.cons h
          · intro h
            cases h with
            | cons h => exact h
            | rel h => exact absurd h hab

/-- The boolean string comparison used in the model coincides with the
standard lexicographic order on `String`. -/
theorem pyStrLe_iff (a b : String) : pyStrLe a b = true ↔ a ≤ b := by
  rw [pyStrLe, Bool.not_eq_true']
  rw [← not_lt (a := b) (b := a)]
  rw [String.lt_iff_toList_lt]
  constructor
  · intro h hlt
    exact absurd ((charsLt_iff _ _).mpr hlt) (by simp [h])
  · intro h
    rw [Bool.eq_false_iff]
    intro hc
    exact h ((charsLt_iff _ _).mp hc)

/-- Membership in a first-seen deduplication. -/
theorem mem_dedupFirstAux {α : Type} [DecidableEq α] (a : α) :
    ∀ (l seen : List α), a ∈ dedupFirstAux l seen ↔ a ∈ l ∧ a ∉ seen := by
  intro l
  induction l with
  | nil => intro seen; simp [dedupFirstAux]
  | cons b t ih =>
    intro seen
    rw [dedupFirstAux]
    by_cases hb : b ∈ seen
    · rw [if_pos hb, ih]
      simp only [List.mem_cons]
      constructor
      · rintro ⟨h1, h2⟩; exact ⟨Or.inr h1, h2⟩
      · rintro ⟨h1 | h1, h2⟩
        · exact absurd (h1 ▸ hb) h2
        · exact ⟨h1, h2⟩
    · rw [if_neg hb]
      simp only [List.mem_cons, ih]
      by_cases hab : a = b
      · subst hab
        simp [hb]
      · simp only [hab, false_or, List.mem_cons]

/-- A first-seen deduplication has no duplicates. -/
theorem nodup_dedupFirstAux {α : Type} [DecidableEq α] :
    ∀ (l seen : List α), (dedupFirstAux l seen).Nodup := by
  intro l
  induction l with
  | nil => intro seen; simp [dedupFirstAux]
  | cons b t ih =>
    intro seen
    rw [dedupFirstAux]
    by_cases hb : b ∈ seen
    · rw [if_pos hb]; exact ih seen
    · rw [if_neg hb]
      refine List.Nodup.cons ?_ (ih (b :: seen))
      intro hmem
      exact ((mem_dedupFirstAux b t (b :: seen)).mp hmem).2 (List.mem_cons_self b seen)

/-- A key is contributed by a record exactly when it is not `id` and
holds a non-boolean numeric value there. -/
theorem mem_recordNumericKeys (c : String) (r : Record) :
    c ∈ recordNumericKeys r ↔
      c ≠ "id" ∧ ∃ v, (c, v) ∈ r ∧ (numericNonBool? v).isSome = true := by
  rw [recordNumericKeys, List.mem_filterMap]
  constructor
  · rintro ⟨kv, hkv, hif⟩
    by_cases h : kv.1 ≠ "id" ∧ (numericNonBool? kv.2).isSome
    · rw [if_pos h] at hif
      obtain rfl : kv.1 = c := Option.some.injEq _ _ ▸ hif
      exact ⟨h.1, kv.2, by simpa using hkv, by simpa using h.2⟩
    · rw [if_neg h] at hif
      exact absurd hif (by simp)
  · rintro ⟨hid, v, hv, hnum⟩
    refine ⟨(c, v), hv, ?_⟩
    rw [if_pos ⟨hid, hnum⟩]

/-- Membership characterization of the discovered numeric columns. -/
theorem mem_get_numeric_columns (data : List Record) (c : String) :
    c ∈ get_numeric_columns data ↔
      c ≠ "id" ∧ ∃ r ∈ data, ∃ v, (c, v) ∈ r ∧ (numericNonBool? v).isSome = true := by
  rw [get_numeric_columns, List.mem_insertionSort, dedupFirst]
  rw [mem_dedupFirstAux]
  simp only [List.not_mem_nil, not_false_iff, and_true, List.mem_flatMap]
  constructor
  · rintro ⟨r, hr, hc⟩
    obtain ⟨hid, v, hv, hnum⟩ := (mem_recordNumericKeys c r).mp hc
    exact ⟨hid, r, hr, v, hv, hnum⟩
  · rintro ⟨hid, r, hr, v, hv, hnum⟩
    exact ⟨r, hr, (mem_recordNumericKeys c r).mpr ⟨hid, v, hv, hnum⟩⟩

/-- The discovered columns are lexicographically sorted. -/
theorem sorted_get_numeric_columns (data : List Record) :
    List.Sorted (fun a b : String => a ≤ b) (get_numeric_columns data) := by
  rw [get_numeric_columns]
  haveI ht : IsTotal String (fun a b => pyStrLe a b = true) :=
    ⟨fun a b => by rw [pyStrLe_iff, pyStrLe_iff]; exact le_total a b⟩
  haveI htr : IsTrans String (fun a b => pyStrLe a b = true) :=
    ⟨fun a b c hab hbc => by
      rw [pyStrLe_iff] at hab hbc ⊢; exact le_trans hab hbc⟩
  have h := List.sorted_insertionSort (fun a b : String => pyStrLe a b = true)
    (dedupFirst (data.flatMap recordNumericKeys))
  exact h.imp (fun hab => (pyStrLe_iff _ _).mp hab)

/-- The discovered columns contain no duplicates. -/
theorem nodup_get_numeric_columns (data : List Record) :
    (get_numeric_columns data).Nodup := by
  rw [get_numeric_columns]
  exact ((List.perm_insertionSort _ _).nodup_iff).mpr (nodup_dedupFirstAux _ [])

/-- C6.  Numeric column discovery returns exactly the
lexicographically sorted, duplicate-free set of field names holding,
in at least one record, a non-boolean number; it never contains the
identifier field `id`, and a field whose values are only booleans (or
only nulls or strings) has no qualifying value and so is never
included. -/
theorem claim_C6 :
    ∀ (data : List Record) (c : String),
      (c ∈ get_numeric_columns data ↔
        c ≠ "id" ∧ ∃ r ∈ data, ∃ v, (c, v) ∈ r ∧ (numericNonBool? v).isSome = true) ∧
      List.Sorted (fun a b : String => a ≤ b) (get_numeric_columns data) ∧
      (get_numeric_columns data).Nodup ∧
      "id" ∉ get_numeric_columns data := by
  intro data c
  refine ⟨mem_get_numeric_columns data c, sorted_get_numeric_columns data,
    nodup_get_numeric_columns data, ?_⟩
  intro h
  exact ((mem_get_numeric_columns data "id").mp h).1 rfl

/-- Records with an `id` number, an ordinary numeric column, a
float-valued column and a purely boolean column. -/
def colsData : List Record :=
  [[("id", PyVal.int 7), ("b", PyVal.int 2), ("flag", PyVal.bool true)],
   [("a", PyVal.float 3), ("flag", PyVal.bool false)]]

/-- C6, witness: discovery on `colsData` yields exactly `a` and `b`,
excluding the identifier and the boolean-only field. -/
theorem claim_C6_witness :
    get_numeric_columns colsData = ["a", "b"] ∧
    "id" ∉ get_numeric_columns colsData ∧
    "flag" ∉ get_numeric_columns colsData := by
  refine ⟨by decide, (claim_C6 colsData "id").2.2.2, ?_⟩
  rw [show get_numeric_columns colsData = ["a", "b"] from by decide]
  decide

/-- On an empty record sequence the feature selection returns the
empty ranking. -/
theorem select_best_features_nil (dep : String) (top_n : ℕ) :
    select_best_features [] dep top_n = [] := by
  simp [select_best_features, sortCorrDesc, get_numeric_columns, dedupFirst, dedupFirstAux]

/-- C7.  `generate_report` never fails: `total_records` is the number
of records, `total_columns` is the field count of the first record
specifically (0 for no records), and the empty input produces exactly
the report with zero totals, empty summary, empty ranking and empty
matrix. -/
theorem claim_C7 :
    ∀ (data : List Record) (dep : String) (top_n : ℕ),
      (generate_report data dep top_n).total_records = data.length ∧
      (generate_report data dep top_n).total_columns =
        (match data with | [] => 0 | r :: _ => r.length) ∧
      (data = [] →
        generate_report data dep top_n =
          { total_records := 0, total_columns := 0, statistical_summary := [],
            best_features := [], correlation_matrix := [] }) := by
  intro data dep top_n
  refine ⟨rfl, rfl, ?_⟩
  rintro rfl
  rw [generate_report]
  rw [select_best_features_nil]
  rfl

/-- C7, witness: the report on no records and on one 22-field flat
record. -/
theorem claim_C7_witness :
    generate_report [] "house" 4 =
      { total_records := 0, total_columns := 0, statistical_summary := [],
        best_features := [], correlation_matrix := [] } ∧
    (generate_report [flatChar1] "house" 4).total_records = 1 ∧
    (generate_report [flatChar1] "house" 4).total_columns = 22 :=
  ⟨(claim_C7 [] "house" 4).2.2 rfl,
   by simpa using (claim_C7 [flatChar1] "house" 4).1,
   by simpa using (claim_C7 [flatChar1] "house" 4).2.1⟩

/-- Lookup in a dict built by a guarded per-key insertion over a
duplicate-free key list. -/
theorem lookup_filterMap_guard {β : Type} (g : String → β) (p : String → Prop)
    [DecidablePred p] :
    ∀ (l : List String), l.Nodup → ∀ c,
      List.lookup c (l.filterMap (fun x => if p x then Option.some (x, g x) else Option.none)) =
        if c ∈ l ∧ p c then Option.some (g c) else Option.none := by
  intro l
  induction l with
  | nil => intro _ c; simp
  | cons a l ih =>
    intro hnd c
    obtain ⟨ha, hl⟩ := List.nodup_cons.mp hnd
    rw [List.filterMap_cons]
    by_cases hpa : p a
    · rw [if_pos hpa]
      by_cases hca : c = a
      · subst hca
        rw [List.lookup_cons, beq_self_eq_true]
        rw [if_pos ⟨List.mem_cons_self c l, hpa⟩]
      · rw [List.lookup_cons, beq_eq_false_iff_ne.mpr hca, ih hl c]
        by_cases hcl : c ∈ l ∧ p c
        · rw [if_pos hcl, if_pos ⟨List.mem_cons_of_mem _ hcl.1, hcl.2⟩]
        · rw [if_neg hcl, if_neg (by simp [hca] at hcl ⊢; tauto)]
    · rw [if_neg hpa, ih hl c]
      by_cases hca : c = a
      · subst hca
        rw [if_neg (fun h => ha h.1), if_neg (fun h => hpa h.2)]
      · by_cases hcl : c ∈ l ∧ p c
        · rw [if_pos hcl, if_pos ⟨List.mem_cons_of_mem _ hcl.1, hcl.2⟩]
        · rw [if_neg hcl, if_neg (by simp [hca] at hcl ⊢; tauto)]

/-- The ascending sort is sorted. -/
theorem sortQ_sorted (l : List ℚ) : List.Sorted (fun a b : ℚ => a ≤ b) (sortQ l) :=
  List.sorted_insertionSort _ l

/-- The ascending sort is a permutation. -/
theorem sortQ_perm (l : List ℚ) : (sortQ l).Perm l :=
  List.perm_insertionSort _ l

/-- Sorting a sorted list changes nothing. -/
theorem sortQ_eq_self_of_sorted {l : List ℚ} (h : List.Sorted (fun a b : ℚ => a ≤ b) l) :
    sortQ l = l :=
  List.eq_of_perm_of_sorted (sortQ_perm l) (sortQ_sorted l) h

/-- Extracted observations are ascending. -/
theorem extract_sorted (data : List Record) (col : String) :
    List.Sorted (fun a b : ℚ => a ≤ b) (extract_numeric_values data col) :=
  List.sorted_insertionSort _ _

/-- A `min`-fold yields an element below the seed and every list
element. -/
theorem foldl_min_spec : ∀ (t : List ℚ) (a : ℚ),
    (t.foldl min a = a ∨ t.foldl min a ∈ t) ∧ t.foldl min a ≤ a ∧ ∀ x ∈ t, t.foldl min a ≤ x := by
  intro t
  induction t with
  | nil => intro a; simp
  | cons b t ih =>
    intro a
    rw [List.foldl_cons]
    obtain ⟨h1, h2, h3⟩ := ih (min a b)
    refine ⟨?_, ?_, ?_⟩
    · rcases h1 with h | h
      · rcases min_choice a b with hm | hm
        · exact Or.inl (h.trans hm)
        · exact Or.inr (by rw [h, hm]; exact List.mem_cons_self b t)
      · exact Or.inr (List.mem_cons_of_mem b h)
    · exact h2.trans (min_le_left a b)
    · intro x hx
      rcases List.mem_cons.mp hx with rfl | hx
      · exact h2.trans (min_le_right a x)
      · exact h3 x hx

/-- Python `min` of a nonempty list is its least element. -/
theorem pyMin_spec {l : List ℚ} (h : l ≠ []) :
    pyMin l ∈ l ∧ ∀ x ∈ l, pyMin l ≤ x := by
  cases l with
  | nil => exact absurd rfl h
  | cons a t =>
    rw [pyMin]
    obtain ⟨h1, h2, h3⟩ := foldl_min_spec t a
    refine ⟨?_, ?_⟩
    · rcases h1 with hh | hh
      · rw [hh]; exact List.mem_cons_self a t
      · exact List.mem_cons_of_mem a hh
    · intro x hx
      rcases List.mem_cons.mp hx with rfl | hx
      · exact h2
      · exact h3 x hx

/-- A `max`-fold yields an element above the seed and every list
element. -/
theorem foldl_max_spec : ∀ (t : List ℚ) (a : ℚ),
    (t.foldl max a = a ∨ t.foldl max a ∈ t) ∧ a ≤ t.foldl max a ∧ ∀ x ∈ t, x ≤ t.foldl max a := by
  intro t
  induction t with
  | nil => intro a; simp
  | cons b t ih =>
    intro a
    rw [List.foldl_cons]
    obtain ⟨h1, h2, h3⟩ := ih (max a b)
    refine ⟨?_, ?_, ?_⟩
    · rcases h1 with h | h
      · rcases max_choice a b with hm | hm
        · exact Or.inl (h.trans hm)
        · exact Or.inr (by rw [h, hm]; exact List.mem_cons_self b t)
      · exact Or.inr (List.mem_cons_of_mem b h)
    · exact (le_max_left a b).trans h2
    · intro x hx
      rcases List.mem_cons.mp hx with rfl | hx
      · exact (le_max_right a x).trans h2
      · exact h3 x hx

/-- Python `max` of a nonempty list is its greatest element. -/
theorem pyMax_spec {l : List ℚ} (h : l ≠ []) :
    pyMax l ∈ l ∧ ∀ x ∈ l, x ≤ pyMax l := by
  cases l with
  | nil => exact absurd rfl h
  | cons a t =>
    rw [pyMax]
    obtain ⟨h1, h2, h3⟩ := foldl_max_spec t a
    refine ⟨?_, ?_⟩
    · rcases h1 with hh | hh
      · rw [hh]; exact List.mem_cons_self a t
      · exact List.mem_cons_of_mem a hh
    · intro x hx
      rcases List.mem_cons.mp hx with rfl | hx
      · exact h2
      · exact h3 x hx

/-- The summary mapping holds exactly the discovered columns with at
least one observation. -/
theorem lookup_statistical_summary (data : List Record) (c : String) :
    List.lookup c (statistical_summary data) =
      if c ∈ get_numeric_columns data ∧ 0 < (extract_numeric_values data c).length then
        Option.some (colSummary data c)
      else Option.none := by
  rw [statistical_summary]
  exact lookup_filterMap_guard (colSummary data)
    (fun col => 0 < (extract_numeric_values data col).length)
    (get_numeric_columns data) (nodup_get_numeric_columns data) c

/-- C2.  For every field present in the summary, the entry is computed
over the ascending observation list: mean is the arithmetic mean,
median the standard median (average of the two middle elements for
even length), `q1 = sorted[n // 4]`, `q3 = sorted[(3 * n) // 4]`
(index-based), the sample standard deviation is `0` when `n <= 1` and
`sqrt(sum of squared deviations / (n - 1))` otherwise, min and max are
the least and greatest observations, and count is `n > 0`; a field
with zero observations (in particular an undiscovered field) is
omitted entirely, so no summary with count 0 is ever emitted. -/
theorem claim_C2 :
    ∀ (data : List Record) (col : String),
      (∀ s, List.lookup col (statistical_summary data) = Option.some s →
        List.Sorted (fun a b : ℚ => a ≤ b) (extract_numeric_values data col) ∧
        0 < (extract_numeric_values data col).length ∧
        s.mean = (extract_numeric_values data col).sum / (extract_numeric_values data col).length ∧
        s.median = (if (extract_numeric_values data col).length % 2 = 1 then
            (extract_numeric_values data col).getD ((extract_numeric_values data col).length / 2) 0
          else
            ((extract_numeric_values data col).getD ((extract_numeric_values data col).length / 2 - 1) 0 +
             (extract_numeric_values data col).getD ((extract_numeric_values data col).length / 2) 0) / 2) ∧
        s.q1 = (extract_numeric_values data col).getD ((extract_numeric_values data col).length / 4) 0 ∧
        s.q3 = (extract_numeric_values data col).getD (3 * (extract_numeric_values data col).length / 4) 0 ∧
        ((extract_numeric_values data col).length ≤ 1 → s.std = 0) ∧
        (1 < (extract_numeric_values data col).length →
          s.std = Real.sqrt ((sumSqDev (extract_numeric_values data col) : ℝ) /
            (((extract_numeric_values data col).length : ℝ) - 1))) ∧
        s.min ∈ extract_numeric_values data col ∧
        (∀ x ∈ extract_numeric_values data col, s.min ≤ x) ∧
        s.max ∈ extract_numeric_values data col ∧
        (∀ x ∈ extract_numeric_values data col, x ≤ s.max) ∧
        s.count = (extract_numeric_values data col).length) ∧
      (extract_numeric_values data col = [] →
        List.lookup col (statistical_summary data) = Option.none) ∧
      (col ∉ get_numeric_columns data →
        List.lookup col (statistical_summary data) = Option.none) := by
  intro data col
  rw [lookup_statistical_summary]
  refine ⟨?_, ?_, ?_⟩
  · intro s hs
    by_cases hc : col ∈ get_numeric_columns data ∧ 0 < (extract_numeric_values data col).length
    · rw [if_pos hc] at hs
      obtain rfl : colSummary data col = s := by simpa using hs
      have hvs := extract_sorted data col
      have hne : extract_numeric_values data col ≠ [] := by
        intro hnil
        rw [hnil] at hc
        simp at hc
      refine ⟨hvs, hc.2, rfl, ?_, rfl, rfl, ?_, ?_, ?_, ?_, ?_, ?_, rfl⟩
      · show medianPy _ = _
        rw [medianPy, sortQ_eq_self_of_sorted hvs]
      · intro hle
        show (if 1 < (extract_numeric_values data col).length then _ else (0:ℝ)) = 0
        rw [if_neg (by omega)]
      · intro hlt
        show (if 1 < (extract_numeric_values data col).length then _ else (0:ℝ)) = _
        rw [if_pos hlt]
      · exact (pyMin_spec hne).1
      · exact (pyMin_spec hne).2
      · exact (pyMax_spec hne).1
      · exact (pyMax_spec hne).2
    · rw [if_neg hc] at hs
      exact absurd hs (by simp)
  · intro hnil
    rw [if_neg (by rw [hnil]; simp)]
  · intro hnc
    rw [if_neg (fun h => hnc h.1)]

/-- Five records whose field `v` carries the observations
`[1, 2, 3, 4, 5]` of the specification scenario. -/
def stats5Data : List Record :=
  [[("v", PyVal.int 1)], [("v", PyVal.int 2)], [("v", PyVal.int 3)],
   [("v", PyVal.int 4)], [("v", PyVal.int 5)]]

/-- Evaluation: the extracted observations of `stats5Data`. -/
theorem extract_stats5 : extract_numeric_values stats5Data "v" = [1, 2, 3, 4, 5] := by
  decide

/-- Evaluation: `v` is summarized on `stats5Data`. -/
theorem lookup_stats5 :
    List.lookup "v" (statistical_summary stats5Data) =
      Option.some (colSummary stats5Data "v") := by
  rw [lookup_statistical_summary]
  rw [if_pos ⟨by decide, by rw [extract_stats5]; norm_num⟩]

/-- Evaluation: squared deviations of the scenario observations. -/
theorem sumSqDev_stats5 : sumSqDev [1, 2, 3, 4, 5] = 10 := by
  rw [sumSqDev, meanQ]
  norm_num [Finset.sum_range_succ]

/-- C2.  For every field present in the summary, the entry is computed
over the ascending observation list: mean is the arithmetic mean,
median the standard median (average of the two middle elements for
even length), `q1 = sorted[n // 4]`, `q3 = sorted[(3 * n) // 4]`
(index-based), the sample standard deviation is `0` when `n <= 1` and
`sqrt(sum of squared deviations / (n - 1))` otherwise, min and max are
the least and greatest observations, and count is `n > 0`; a field
with zero observations (in particular an undiscovered field) is
omitted entirely, so no summary with count 0 is ever emitted. -/
theorem claim_C2_witness :
    List.lookup "v" (statistical_summary stats5Data) =
      Option.some (colSummary stats5Data "v") ∧
    (colSummary stats5Data "v").mean = 3 ∧
    (colSummary stats5Data "v").median = 3 ∧
    (colSummary stats5Data "v").q1 = 2 ∧
    (colSummary stats5Data "v").q3 = 4 ∧
    0 < (colSummary stats5Data "v").std ∧
    (colSummary stats5Data "v").min = 1 ∧
    (colSummary stats5Data "v").max = 5 ∧
    (colSummary stats5Data "v").count = 5 := by
  obtain ⟨hsor, hpos, hmean, hmed, hq1, hq3, hstd0, hstd, hmin1, hmin2, hmax1, hmax2, hcount⟩ :=
    (claim_C2 stats5Data "v").1 (colSummary stats5Data "v") lookup_stats5
  refine ⟨lookup_stats5, ?_, ?_, ?_, ?_, ?_, ?_, ?_, ?_⟩
  · rw [hmean, extract_stats5]
    norm_num
  · rw [hmed, extract_stats5]
    norm_num
  · rw [hq1, extract_stats5]
    norm_num
  · rw [hq3, extract_stats5]
    norm_num
  · rw [hstd (by rw [extract_stats5]; norm_num)]
    rw [extract_stats5, sumSqDev_stats5]
    apply Real.sqrt_pos.mpr
    norm_num
  · show pyMin (extract_numeric_values stats5Data "v") = 1
    rw [extract_stats5]
    norm_num [pyMin]
  · show pyMax (extract_numeric_values stats5Data "v") = 5
    rw [extract_stats5]
    norm_num [pyMax]
  · rw [hcount, extract_stats5]
    rfl

/-- A sum of squared deviations is nonnegative. -/
theorem sumSqDev_nonneg (l : List ℚ) : 0 ≤ sumSqDev l := by
  rw [sumSqDev]
  exact Finset.sum_nonneg (fun i _ => sq_nonneg _)

/-- Cauchy-Schwarz: the Pearson coefficient always lies in `[-1, 1]`. -/
theorem pearson_abs_le_one (x y : List ℚ) : |pearson_correlation x y| ≤ 1 := by
  rw [pearson_correlation]
  by_cases h1 : x.length ≠ y.length ∨ x.length < 2
  · rw [if_pos h1]; norm_num
  · rw [if_neg h1]
    by_cases h2 : Real.sqrt ((sumSqDev x * sumSqDev y : ℚ) : ℝ) = 0
    · rw [if_pos h2]; norm_num
    · rw [if_neg h2]
      push_neg at h1
      have hlen : y.length = x.length := h1.1.symm
      have hP : (0 : ℝ) < ((sumSqDev x * sumSqDev y : ℚ) : ℝ) := by
        rcases lt_or_le 0 ((sumSqDev x * sumSqDev y : ℚ) : ℝ) with h | h
        · exact h
        · exact absurd (Real.sqrt_eq_zero'.mpr h) h2
      have hCS : (sumCross x y) ^ 2 ≤ sumSqDev x * sumSqDev y := by
        rw [sumCross, sumSqDev, sumSqDev, hlen]
        exact Finset.sum_mul_sq_le_sq_mul_sq (Finset.range x.length)
          (fun i => x.getD i 0 - meanQ x) (fun i => y.getD i 0 - meanQ y)
      rw [abs_div]
      rw [abs_of_nonneg (Real.sqrt_nonneg _)]
      rw [div_le_one (Real.sqrt_pos.mpr hP)]
      refine (Real.le_sqrt (abs_nonneg _) (le_of_lt hP)).mpr ?_
      rw [sq_abs]
      calc ((sumCross x y : ℚ) : ℝ) ^ 2 = (((sumCross x y) ^ 2 : ℚ) : ℝ) := by push_cast; ring
        _ ≤ ((sumSqDev x * sumSqDev y : ℚ) : ℝ) := by exact_mod_cast hCS

/-- C3.  The Pearson primitive returns 0 when the sequences have
different lengths or fewer than two elements, returns 0 when either
sequence has zero variance (zero denominator), otherwise returns
`sum((xi - mean x) * (yi - mean y)) / sqrt(Sxx * Syy)`, and always
lies in `[-1, 1]`; it is the single primitive used by both the
correlation matrix (inside `round(..., 4)`) and the feature ranking. -/
theorem claim_C3 :
    (∀ x y : List ℚ,
      ((x.length ≠ y.length ∨ x.length < 2) → pearson_correlation x y = 0) ∧
      (sumSqDev x = 0 ∨ sumSqDev y = 0 → pearson_correlation x y = 0) ∧
      (x.length = y.length → 2 ≤ x.length → sumSqDev x ≠ 0 → sumSqDev y ≠ 0 →
        pearson_correlation x y =
          (sumCross x y : ℝ) / Real.sqrt ((sumSqDev x : ℝ) * (sumSqDev y : ℝ))) ∧
      |pearson_correlation x y| ≤ 1) ∧
    (∀ (data : List Record) (c1 c2 : String), c1 ≠ c2 →
      1 < (jointPairs data c1 c2).length →
      corrEntry data c1 c2 =
        round4 (pearson_correlation ((jointPairs data c1 c2).map Prod.fst)
          ((jointPairs data c1 c2).map Prod.snd))) ∧
    (∀ (data : List Record) (dep : String) (top_n : ℕ),
      select_best_features data dep top_n =
        (sortCorrDesc (featureCorrelations data dep)).take top_n) := by
  refine ⟨?_, ?_, ?_⟩
  · intro x y
    refine ⟨?_, ?_, ?_, pearson_abs_le_one x y⟩
    · intro h
      rw [pearson_correlation, if_pos h]
    · intro h
      rw [pearson_correlation]
      by_cases h1 : x.length ≠ y.length ∨ x.length < 2
      · rw [if_pos h1]
      · rw [if_neg h1]
        have hz : ((sumSqDev x * sumSqDev y : ℚ) : ℝ) = 0 := by
          rcases h with h | h <;> rw [h] <;> push_cast <;> ring
        rw [if_pos (by rw [hz]; exact Real.sqrt_zero)]
    · intro hlen h2 hx hy
      rw [pearson_correlation]
      rw [if_neg (by push_neg; omega)]
      have hxpos : 0 < sumSqDev x := lt_of_le_of_ne (sumSqDev_nonneg x) (Ne.symm hx)
      have hypos : 0 < sumSqDev y := lt_of_le_of_ne (sumSqDev_nonneg y) (Ne.symm hy)
      have hP : (0 : ℝ) < ((sumSqDev x * sumSqDev y : ℚ) : ℝ) := by
        push_cast
        positivity
      rw [if_neg (ne_of_gt (Real.sqrt_pos.mpr hP))]
      congr 1
      push_cast
      ring_nf
  · intro data c1 c2 hne hlen
    rw [corrEntry, if_neg hne]
    simp only [hlen, if_pos]
  · intro data dep top_n
    rfl

/-- Read one cell of the correlation-matrix mapping. -/
noncomputable def matrixLookup (data : List Record) (c1 c2 : String) : Option ℝ :=
  (List.lookup c1 (get_correlation_matrix data)).bind (fun row => List.lookup c2 row)

/-- Lookup in a dict built keyed over a list by a function. -/
theorem lookup_map_self {β : Type} (f : String → β) :
    ∀ (l : List String) (c : String), c ∈ l →
      List.lookup c (l.map (fun x => (x, f x))) = Option.some (f c) := by
  intro l
  induction l with
  | nil => intro c hc; exact absurd hc (List.not_mem_nil c)
  | cons a t ih =>
    intro c hc
    rw [List.map_cons, List.lookup_cons]
    by_cases hca : c = a
    · subst hca
      rw [beq_self_eq_true]
    · rw [beq_eq_false_iff_ne.mpr hca]
      exact ih c (List.mem_of_ne_of_mem hca hc)

/-- Every pair of discovered columns has a matrix cell, equal to
`corrEntry`. -/
theorem matrixLookup_eq (data : List Record) (c1 c2 : String)
    (h1 : c1 ∈ get_numeric_columns data) (h2 : c2 ∈ get_numeric_columns data) :
    matrixLookup data c1 c2 = Option.some (corrEntry data c1 c2) := by
  rw [matrixLookup, get_correlation_matrix]
  rw [lookup_map_self _ _ _ h1]
  rw [Option.some_bind]
  rw [lookup_map_self _ _ _ h2]

/-- Rounding half to even moves a real by at most one half. -/
theorem rhe_abs_sub (x : ℝ) : |(pyRoundHalfEven x : ℝ) - x| ≤ 1 / 2 := by
  rw [pyRoundHalfEven]
  by_cases h : Int.fract x = 1 / 2
  · have hfr : x - (⌊x⌋ : ℝ) = 1 / 2 := by
      have := Int.floor_add_fract x
      rw [h] at this
      linarith
    by_cases he : Even ⌊x⌋
    · rw [if_pos h, if_pos he]
      rw [show ((⌊x⌋ : ℝ) - x) = -(x - (⌊x⌋ : ℝ)) by ring, hfr]
      rw [abs_neg]
      rw [abs_of_nonneg (by norm_num)]
    · rw [if_pos h, if_neg he]
      push_cast
      rw [show ((⌊x⌋ : ℝ) + 1 - x) = 1 - (x - (⌊x⌋ : ℝ)) by ring, hfr]
      rw [abs_of_nonneg (by norm_num : (0:ℝ) ≤ 1 - 1 / 2)]
      norm_num
  · rw [if_neg h]
    rw [abs_sub_comm]
    exact abs_sub_round x

/-- Rounding to four decimal places preserves the unit interval. -/
theorem round4_abs_le_one {x : ℝ} (hx : |x| ≤ 1) : |round4 x| ≤ 1 := by
  rw [round4]
  have hk := rhe_abs_sub (x * 10000)
  set k := pyRoundHalfEven (x * 10000) with hkdef
  have hkb : |(k : ℝ)| ≤ 10000 + 1 / 2 := by
    have h1 : |(k : ℝ)| ≤ |(k : ℝ) - x * 10000| + |x * 10000| := by
      calc |(k : ℝ)| = |((k : ℝ) - x * 10000) + x * 10000| := by ring_nf
        _ ≤ |(k : ℝ) - x * 10000| + |x * 10000| := abs_add _ _
    have h2 : |x * 10000| ≤ 10000 := by
      rw [abs_mul]
      rw [abs_of_nonneg (by norm_num : (0:ℝ) ≤ 10000)]
      nlinarith
    linarith
  have hki : |k| ≤ 10000 := by
    by_contra hcon
    push_neg at hcon
    have hge : (10001 : ℝ) ≤ |(k : ℝ)| := by exact_mod_cast hcon
    linarith
  rw [abs_div]
  rw [abs_of_nonneg (by norm_num : (0:ℝ) ≤ 10000)]
  rw [div_le_one (by norm_num : (0:ℝ) < 10000)]
  exact_mod_cast hki

/-- Every matrix cell lies in `[-1, 1]`. -/
theorem corrEntry_abs_le_one (data : List Record) (c1 c2 : String) :
    |corrEntry data c1 c2| ≤ 1 := by
  rw [corrEntry]
  by_cases h : c1 = c2
  · rw [if_pos h]; norm_num
  · rw [if_neg h]
    by_cases hl : 1 < (jointPairs data c1 c2).length
    · simp only [hl, if_true]
      exact round4_abs_le_one (pearson_abs_le_one _ _)
    · simp only [hl, if_false]
      norm_num

/-- C4, amended.  Over the discovered numeric fields the matrix cell
`(c1, c2)` exists; the diagonal is exactly 1.0 independent of the
data; an off-diagonal cell with at least two joint observations (both
fields non-null numeric in the record, per-pair filtering) is the
Pearson correlation of those pairs rounded half-to-even to 4 decimal
places; an off-diagonal cell with fewer than two joint observations
is 0.0; and every cell lies in `[-1, 1]`. -/
theorem claim_C4 :
    ∀ (data : List Record) (c1 c2 : String),
      c1 ∈ get_numeric_columns data → c2 ∈ get_numeric_columns data →
      matrixLookup data c1 c2 = Option.some (corrEntry data c1 c2) ∧
      (c1 = c2 → corrEntry data c1 c2 = 1) ∧
      (c1 ≠ c2 → 1 < (jointPairs data c1 c2).length →
        corrEntry data c1 c2 =
          round4 (pearson_correlation ((jointPairs data c1 c2).map Prod.fst)
            ((jointPairs data c1 c2).map Prod.snd))) ∧
      (c1 ≠ c2 → (jointPairs data c1 c2).length ≤ 1 → corrEntry data c1 c2 = 0) ∧
      |corrEntry data c1 c2| ≤ 1 := by
  intro data c1 c2 h1 h2
  refine ⟨matrixLookup_eq data c1 c2 h1 h2, ?_, ?_, ?_, corrEntry_abs_le_one data c1 c2⟩
  · intro h; rw [corrEntry, if_pos h]
  · intro hne hlen
    rw [corrEntry, if_neg hne]
    simp only [hlen, if_pos]
  · intro hne hlen
    rw [corrEntry, if_neg hne]
    simp only [Nat.not_lt.mpr hlen, if_neg, if_false]

/-- Four two-column records whose Pearson correlation is the
irrational `-1 / sqrt 2`. -/
def corrData : List Record :=
  [[("a", PyVal.int 0), ("b", PyVal.int 3)],
   [("a", PyVal.int 1), ("b", PyVal.int 4)],
   [("a", PyVal.int 2), ("b", PyVal.int 0)],
   [("a", PyVal.int 3), ("b", PyVal.int 1)]]

/-- Evaluation: the joint observations of `corrData`. -/
theorem jointPairs_corrData :
    jointPairs corrData "a" "b" = [(0, 3), (1, 4), (2, 0), (3, 1)] := by decide

/-- Evaluation: the discovered columns of `corrData`. -/
theorem corrData_cols : get_numeric_columns corrData = ["a", "b"] := by decide

/-- Evaluation: `Sxx` of the counterexample data. -/
theorem sumSqDev_x : sumSqDev [0, 1, 2, 3] = 5 := by
  rw [sumSqDev, meanQ]
  norm_num [Finset.sum_range_succ]

/-- Evaluation: `Syy` of the counterexample data. -/
theorem sumSqDev_y : sumSqDev [3, 4, 0, 1] = 10 := by
  rw [sumSqDev, meanQ]
  norm_num [Finset.sum_range_succ]

/-- Evaluation: the Pearson numerator of the counterexample data. -/
theorem sumCross_xy : sumCross [0, 1, 2, 3] [3, 4, 0, 1] = -5 := by
  rw [sumCross, meanQ, meanQ]
  norm_num [Finset.sum_range_succ]

/-- Evaluation: the Pearson coefficient of the counterexample data. -/
theorem pearson_xy :
    pearson_correlation [0, 1, 2, 3] [3, 4, 0, 1] = (-5 : ℝ) / Real.sqrt 50 := by
  rw [pearson_correlation]
  rw [if_neg (by norm_num)]
  rw [sumSqDev_x, sumSqDev_y, sumCross_xy]
  rw [show ((5 * 10 : ℚ) : ℝ) = 50 by norm_num]
  rw [if_neg (ne_of_gt (Real.sqrt_pos.mpr (by norm_num)))]
  norm_num

/-- The square root of 50. -/
theorem sqrt50_eq : Real.sqrt 50 = 5 * Real.sqrt 2 := by
  rw [show (50 : ℝ) = 25 * 2 by norm_num]
  rw [Real.sqrt_mul (by norm_num : (0:ℝ) ≤ 25)]
  rw [show (25 : ℝ) = 5 ^ 2 by norm_num]
  rw [Real.sqrt_sq (by norm_num : (0:ℝ) ≤ 5)]

/-- C4, amended.  Over the discovered numeric fields the matrix cell
`(c1, c2)` exists; the diagonal is exactly 1.0 independent of the
data; an off-diagonal cell with at least two joint observations (both
fields non-null numeric in the record, per-pair filtering) is the
Pearson correlation of those pairs rounded half-to-even to 4 decimal
places; an off-diagonal cell with fewer than two joint observations
is 0.0; and every cell lies in `[-1, 1]`. -/
theorem claim_C4_counterexample :
    matrixLookup corrData "a" "b" ≠
      Option.some (pearson_correlation ((jointPairs corrData "a" "b").map Prod.fst)
        ((jointPairs corrData "a" "b").map Prod.snd)) := by
  intro hcontra
  have hmx : ((jointPairs corrData "a" "b").map Prod.fst) = [0, 1, 2, 3] := by
    rw [jointPairs_corrData]; rfl
  have hmy : ((jointPairs corrData "a" "b").map Prod.snd) = [3, 4, 0, 1] := by
    rw [jointPairs_corrData]; rfl
  have hm : matrixLookup corrData "a" "b" = Option.some (corrEntry corrData "a" "b") :=
    matrixLookup_eq corrData "a" "b" (by rw [corrData_cols]; decide) (by rw [corrData_cols]; decide)
  have hee : corrEntry corrData "a" "b" =
      round4 (pearson_correlation [0, 1, 2, 3] [3, 4, 0, 1]) := by
    rw [corrEntry, if_neg (by decide)]
    simp only [jointPairs_corrData]
    rw [if_pos (by norm_num)]
    rw [show (List.map Prod.fst [((0:ℚ), (3:ℚ)), (1, 4), (2, 0), (3, 1)]) = [0, 1, 2, 3] from rfl]
    rw [show (List.map Prod.snd [((0:ℚ), (3:ℚ)), (1, 4), (2, 0), (3, 1)]) = [3, 4, 0, 1] from rfl]
  rw [hm, hmx, hmy, hee] at hcontra
  have heq : round4 (pearson_correlation [0, 1, 2, 3] [3, 4, 0, 1]) =
      pearson_correlation [0, 1, 2, 3] [3, 4, 0, 1] := Option.some.inj hcontra
  rw [pearson_xy, round4] at heq
  set k := pyRoundHalfEven ((-5 : ℝ) / Real.sqrt 50 * 10000) with hk
  have hsqrt_pos : (0 : ℝ) < Real.sqrt 50 := Real.sqrt_pos.mpr (by norm_num)
  have hsqrt_ne : Real.sqrt 50 ≠ 0 := ne_of_gt hsqrt_pos
  have hA : (k : ℝ) * Real.sqrt 50 = -50000 := by
    field_simp at heq
    linarith [heq]
  have hkne : (k : ℝ) ≠ 0 := by
    intro hk0
    rw [hk0, zero_mul] at hA
    norm_num at hA
  have hB : (k : ℝ) * Real.sqrt 2 = -10000 := by
    rw [sqrt50_eq] at hA
    nlinarith [hA]
  have hs2 : ((-10000 / (k : ℚ) : ℚ) : ℝ) = Real.sqrt 2 := by
    push_cast
    rw [div_eq_iff hkne]
    linarith [hB]
  exact irrational_sqrt_two ⟨(-10000 / (k : ℚ) : ℚ), hs2⟩

/-- C4, amended.  Over the discovered numeric fields the matrix cell
`(c1, c2)` exists; the diagonal is exactly 1.0 independent of the
data; an off-diagonal cell with at least two joint observations (both
fields non-null numeric in the record, per-pair filtering) is the
Pearson correlation of those pairs rounded half-to-even to 4 decimal
places; an off-diagonal cell with fewer than two joint observations
is 0.0; and every cell lies in `[-1, 1]`. -/
theorem claim_C4_witness :
    matrixLookup corrData "a" "a" = Option.some (corrEntry corrData "a" "a") ∧
    corrEntry corrData "a" "a" = 1 ∧
    |corrEntry corrData "a" "b"| ≤ 1 := by
  have hma : "a" ∈ get_numeric_columns corrData := by rw [corrData_cols]; decide
  have hmb : "b" ∈ get_numeric_columns corrData := by rw [corrData_cols]; decide
  exact ⟨(claim_C4 corrData "a" "a" hma hma).1,
    (claim_C4 corrData "a" "a" hma hma).2.1 rfl,
    (claim_C4 corrData "a" "b" hma hmb).2.2.2.2⟩

/-- C3.  The Pearson primitive returns 0 when the sequences have
different lengths or fewer than two elements, returns 0 when either
sequence has zero variance (zero denominator), otherwise returns
`sum((xi - mean x) * (yi - mean y)) / sqrt(Sxx * Syy)`, and always
lies in `[-1, 1]`; it is the single primitive used by both the
correlation matrix (inside `round(..., 4)`) and the feature ranking. -/
theorem claim_C3_witness :
    pearson_correlation [1, 2] [1, 3] =
      (sumCross [1, 2] [1, 3] : ℝ) / Real.sqrt ((sumSqDev [1, 2] : ℝ) * (sumSqDev [1, 3] : ℝ)) ∧
    pearson_correlation [1] [1, 3] = 0 := by
  constructor
  · refine (claim_C3.1 [1, 2] [1, 3]).2.2.1 rfl (by norm_num) ?_ ?_
    · rw [sumSqDev, meanQ]
      norm_num [Finset.sum_range_succ]
    · rw [sumSqDev, meanQ]
      norm_num [Finset.sum_range_succ]
  · exact (claim_C3.1 [1] [1, 3]).1 (Or.inl (by norm_num))

/-- The distinct non-null target values in first-seen order, as the
specification words the label encoding. -/
def specFirstSeen (data : List Record) (dep : String) : List PyVal :=
  dedupFirst ((data.map (fun r => pyGet r dep)).filter (fun v => decide (v ≠ PyVal.none)))

/-- First-seen deduplication depends on the seen accumulator only
through membership. -/
theorem dedupFirstAux_congr {α : Type} [DecidableEq α] :
    ∀ (l s1 s2 : List α), (∀ x, x ∈ s1 ↔ x ∈ s2) →
      dedupFirstAux l s1 = dedupFirstAux l s2 := by
  intro l
  induction l with
  | nil => intro s1 s2 _; rfl
  | cons a t ih =>
    intro s1 s2 h
    rw [dedupFirstAux, dedupFirstAux]
    by_cases ha : a ∈ s1
    · rw [if_pos ha, if_pos ((h a).mp ha)]
      exact ih s1 s2 h
    · rw [if_neg ha, if_neg (fun hc => ha ((h a).mpr hc))]
      rw [ih (a :: s1) (a :: s2) (fun x => by simp [h x])]

/-- The code of an already-seen value is unchanged by extending the
first-seen list. -/
theorem seenIndex_append_of_mem {α : Type} [DecidableEq α] (v : α) :
    ∀ (s t : List α), v ∈ s → seenIndex v (s ++ t) = seenIndex v s := by
  intro s
  induction s with
  | nil => intro t h; exact absurd h (List.not_mem_nil v)
  | cons a s ih =>
    intro t h
    rw [List.cons_append, seenIndex, seenIndex]
    by_cases hav : a = v
    · rw [if_pos hav, if_pos hav]
    · rw [if_neg hav, if_neg hav]
      rw [ih t (List.mem_of_ne_of_mem (fun he => hav he.symm) h)]

/-- A fresh value appended to the first-seen list gets the next
code. -/
theorem seenIndex_append_self {α : Type} [DecidableEq α] (v : α) :
    ∀ (s t : List α), v ∉ s → seenIndex v (s ++ v :: t) = s.length := by
  intro s
  induction s with
  | nil => intro t _; simp [seenIndex]
  | cons a s ih =>
    intro t h
    rw [List.cons_append, seenIndex]
    rw [if_neg (fun hav : a = v => h (by rw [← hav]; exact List.mem_cons_self a s))]
    rw [ih t (fun hm => h (List.mem_cons_of_mem a hm))]
    rfl

/-- The encoding loop assigns every non-null target value its index in
the first-seen list of distinct values, and `None` to null targets. -/
theorem encodeGo_eq (dep : String) :
    ∀ (rs : List Record) (seen : List PyVal),
      encodeGo dep rs seen = rs.map (fun r =>
        if pyGet r dep = PyVal.none then Option.none
        else Option.some (seenIndex (pyGet r dep)
          (seen ++ dedupFirstAux
            ((rs.map (fun r => pyGet r dep)).filter (fun v => decide (v ≠ PyVal.none)))
            seen))) := by
  intro rs
  induction rs with
  | nil => intro seen; rfl
  | cons r rs ih =>
    intro seen
    rw [encodeGo]
    simp only [List.map_cons, List.filter_cons]
    by_cases hv : pyGet r dep = PyVal.none
    · rw [if_pos hv]
      have hd : (decide (pyGet r dep ≠ PyVal.none)) = false := by simp [hv]
      rw [hd]
      simp only [Bool.false_eq_true, if_false, if_pos hv]
      rw [ih seen]
    · rw [if_neg hv]
      have hd : (decide (pyGet r dep ≠ PyVal.none)) = true := by simp [hv]
      rw [hd]
      simp only [if_true, if_neg hv]
      set v := pyGet r dep with hvdef
      set rest := ((rs.map (fun r => pyGet r dep)).filter
        (fun w => decide (w ≠ PyVal.none))) with hrest
      by_cases hm : v ∈ seen
      · rw [if_pos hm]
        rw [dedupFirstAux, if_pos hm]
        rw [seenIndex_append_of_mem v seen _ hm]
        rw [ih seen]
      · rw [if_neg hm]
        rw [dedupFirstAux, if_neg hm]
        rw [seenIndex_append_self v seen _ hm]
        rw [ih (seen ++ [v])]
        congr 1
        apply List.map_congr_left
        intro b _
        by_cases hb : pyGet b dep = PyVal.none
        · rw [if_pos hb, if_pos hb]
        · rw [if_neg hb, if_neg hb]
          rw [dedupFirstAux_congr rest (seen ++ [v]) (v :: seen) (fun x => by simp; tauto)]
          rw [List.append_assoc]
          rfl

/-- A `filterMap` that kills every element failing `p` can be
restricted to the `p`-filtered list. -/
theorem filterMap_eq_filterMap_filter {α β : Type} (f : α → Option β) (p : α → Bool)
    (hf : ∀ a, p a = false → f a = Option.none) :
    ∀ l : List α, l.filterMap f = (l.filter p).filterMap f := by
  intro l
  induction l with
  | nil => rfl
  | cons a t ih =>
    rw [List.filterMap_cons, List.filter_cons]
    by_cases hp : p a = true
    · rw [if_pos hp, List.filterMap_cons, ih]
    · rw [if_neg hp, hf a (Bool.not_eq_true _ ▸ hp), ih]

/-- The correlations list has one entry per discovered column with at
least two valid pairs. -/
theorem length_featureCorrelations (data : List Record) (dep : String) :
    (featureCorrelations data dep).length =
      (get_numeric_columns data).countP
        (fun col => decide (1 < (featurePairs data (encodeTargets data dep) col).length)) := by
  rw [featureCorrelations]
  generalize get_numeric_columns data = l
  induction l with
  | nil => rfl
  | cons a t ih =>
    rw [List.filterMap_cons, List.countP_cons]
    by_cases hp : 1 < (featurePairs data (encodeTargets data dep) a).length
    · simp only [hp, if_true, List.length_cons, ih]
      simp
    · simp only [hp, if_false, ih]
      simp

/-- Sorting the correlations list permutes it. -/
theorem sortCorrDesc_perm (l : List (String × ℝ)) : (sortCorrDesc l).Perm l :=
  List.perm_insertionSort _ l

/-- The correlation sort is descending in the correlation value. -/
theorem sortCorrDesc_sorted (l : List (String × ℝ)) :
    List.Sorted (fun a b : String × ℝ => b.2 ≤ a.2) (sortCorrDesc l) := by
  haveI ht : IsTotal (String × ℝ) (fun a b : String × ℝ => b.2 ≤ a.2) :=
    ⟨fun a b => le_total b.2 a.2⟩
  haveI htr : IsTrans (String × ℝ) (fun a b : String × ℝ => b.2 ≤ a.2) :=
    ⟨fun _ _ _ hab hbc => le_trans hbc hab⟩
  rw [sortCorrDesc]
  exact @List.sorted_insertionSort _ (fun a b : String × ℝ => b.2 ≤ a.2)
    (fun _ _ => Classical.propDecidable _) ht htr l

/-- C5.  Feature ranking encodes the distinct target values as
integers in first-seen order; records with a null target are excluded
from every field's pairing; pairs require the target code present and
the value non-null numeric; a discovered field is omitted (not
zero-filled) when fewer than two pairs exist; the result is the
correlations list sorted by absolute correlation descending and
truncated to `top_n`, so its length is
`min top_n (number of fields with at least 2 valid pairs)`. -/
theorem claim_C5 :
    ∀ (data : List Record) (dep : String) (top_n : ℕ),
      encodeTargets data dep = data.map (fun r =>
        if pyGet r dep = PyVal.none then Option.none
        else Option.some (seenIndex (pyGet r dep) (specFirstSeen data dep))) ∧
      (∀ col, featurePairs data (encodeTargets data dep) col =
        ((data.zip (encodeTargets data dep)).filter (fun pr => pr.2.isSome)).filterMap
          (fun p => match p.2, numericValue? (pyGet p.1 col) with
            | Option.some t, Option.some v => Option.some (v, (t : ℚ))
            | _, _ => Option.none)) ∧
      select_best_features data dep top_n =
        (sortCorrDesc (featureCorrelations data dep)).take top_n ∧
      List.Sorted (fun a b : String × ℝ => b.2 ≤ a.2) (select_best_features data dep top_n) ∧
      (select_best_features data dep top_n).length =
        min top_n ((get_numeric_columns data).countP
          (fun col => decide (1 < (featurePairs data (encodeTargets data dep) col).length))) ∧
      (∀ col v, (featurePairs data (encodeTargets data dep) col).length ≤ 1 →
        (col, v) ∉ select_best_features data dep top_n) := by
  intro data dep top_n
  refine ⟨?_, ?_, rfl, ?_, ?_, ?_⟩
  · rw [encodeTargets, encodeGo_eq dep data []]
    rfl
  · intro col
    rw [featurePairs]
    refine filterMap_eq_filterMap_filter _ (fun pr : Record × Option ℕ => pr.2.isSome) ?_ _
    intro pr hp
    rcases pr with ⟨r, tcode⟩
    cases tcode with
    | none => rfl
    | some t => simp at hp
  · rw [select_best_features]
    exact (sortCorrDesc_sorted (featureCorrelations data dep)).sublist
      (List.take_sublist top_n _)
  · rw [select_best_features, List.length_take]
    rw [(sortCorrDesc_perm (featureCorrelations data dep)).length_eq]
    rw [length_featureCorrelations]
  · intro col v hlen hmem
    rw [select_best_features] at hmem
    have hmem2 : (col, v) ∈ sortCorrDesc (featureCorrelations data dep) :=
      (List.take_sublist top_n _).subset hmem
    have hmem3 : (col, v) ∈ featureCorrelations data dep :=
      (sortCorrDesc_perm _).subset hmem2
    rw [featureCorrelations] at hmem3
    obtain ⟨col2, hcol2, hif⟩ := List.mem_filterMap.mp hmem3
    by_cases hp : 1 < (featurePairs data (encodeTargets data dep) col2).length
    · simp only [hp, if_true] at hif
      obtain ⟨rfl, -⟩ : col2 = col ∧ _ := by
        constructor
        · exact congrArg Prod.fst (Option.some.inj hif)
        · exact trivial
      omega
    · simp only [hp, if_false] at hif
      exact Option.noConfusion hif

/-- Records with two numeric fields and a categorical `house` target,
including a null-target record and a field with a single valid
pair. -/
def featData : List Record :=
  [[("x", PyVal.int 1), ("house", PyVal.str "g")],
   [("x", PyVal.int 2), ("house", PyVal.str "s")],
   [("x", PyVal.int 5), ("house", PyVal.none)],
   [("y", PyVal.int 9), ("house", PyVal.str "g")]]

/-- C5.  Feature ranking encodes the distinct target values as
integers in first-seen order; records with a null target are excluded
from every field's pairing; pairs require the target code present and
the value non-null numeric; a discovered field is omitted (not
zero-filled) when fewer than two pairs exist; the result is the
correlations list sorted by absolute correlation descending and
truncated to `top_n`, so its length is
`min top_n (number of fields with at least 2 valid pairs)`. -/
theorem claim_C5_witness :
    encodeTargets featData "house" =
      [Option.some 0, Option.some 1, Option.none, Option.some 0] ∧
    (select_best_features featData "house" 4).length = 1 := by
  constructor
  · rw [(claim_C5 featData "house" 4).1]
    decide
  · rw [(claim_C5 featData "house" 4).2.2.2.2.1]
    decide
